import Mathlib

/-!
Verification of the compiler-feedback-driven repair tool.

The file shallowly embeds the core pure logic of the repository:

* `extractCode` (ResponseExtractor) from `src/unnamed/part_000` lines 44-59
  (identical copy in `src/test/Example.cs` lines 119-134): concatenation of
  text parts, the fenced-code-block search of the JavaScript regular
  expression and the fallback path.
* `getBuildErrors` / `getBuildErrorFiles` (DiagnosticExtractor) from
  `src/src/index.ts` lines 229-281: the two line-matching regular
  expressions are embedded as explicit backtracking matchers with the
  exact greedy semantics of the JavaScript engine.
* the retry loop (RetryController) of `main`, `src/src/index.ts`
  lines 349-379, as a recursion over attempts with oracle-valued
  collaborator results.
* the per-file processing loop (RepairPipeline) of `main`,
  `src/src/index.ts` lines 324-384, in an exception monad: steps placed
  outside the `try` block propagate, steps inside are caught.
* the stream relay loop of `modifyFile`/`sendFollowUp`,
  `src/test/Example.cs` lines 49-111.

External collaborators (node's `path.resolve`, the network client, the
filesystem, the compiler process) are modelled as explicit function
arguments or oracle fields; they are not part of the repository's code.
-/

namespace Repair

/-- The backtick character, written by code point to keep source text plain. -/
def bt : Char := Char.ofNat 96

/-- JavaScript whitespace class `\s`: space, tab, line feed, vertical tab,
form feed, carriage return, plus the Unicode space characters recognised by
the ECMAScript `\s` class. -/
def isJsWs (c : Char) : Bool :=
  c == ' ' || c == '\t' || c == '\n' || c.val == 0xb || c.val == 0xc || c == '\r' ||
  c.val == 0xa0 || c.val == 0x1680 || (0x2000 ≤ c.val && c.val ≤ 0x200a) ||
  c.val == 0x2028 || c.val == 0x2029 || c.val == 0x202f || c.val == 0x205f ||
  c.val == 0x3000 || c.val == 0xfeff

/-- Characters matched by the JavaScript `.` metacharacter (no `s` flag):
everything except the four ECMAScript line terminators. -/
def dotOk (c : Char) : Bool :=
  !(c == '\n' || c == '\r' || c.val == 0x2028 || c.val == 0x2029)

/-- JavaScript `String.prototype.trimEnd`: remove trailing whitespace. -/
def jsTrimEnd (l : List Char) : List Char :=
  (l.reverse.dropWhile isJsWs).reverse

/-- JavaScript `String.prototype.trim`: remove whitespace at both ends. -/
def jsTrim (l : List Char) : List Char :=
  jsTrimEnd (l.dropWhile isJsWs)

/-- JavaScript `Array.prototype.join("\n")` on a list of strings
(`textParts.join("\n")` in `extractCode`). -/
def joinNl : List (List Char) → List Char
  | [] => []
  | [x] => x
  | x :: y :: r => x ++ '\n' :: joinNl (y :: r)

/-- JavaScript `String.prototype.split(sep)` for a one-character separator
(`output.split("\n")` in the diagnostic extractors). -/
def splitOnChar (sep : Char) : List Char → List (List Char)
  | [] => [[]]
  | c :: r =>
    if c == sep then [] :: splitOnChar sep r
    else
      match splitOnChar sep r with
      | h :: t => (c :: h) :: t
      | [] => [[c]]

/-- Does the text start with three backticks (a fence)? -/
def startsTriple (l : List Char) : Bool :=
  match l with
  | a :: b :: c :: _ => a == bt && b == bt && c == bt
  | _ => false

/-- Does the text contain three consecutive backticks anywhere? -/
def containsTriple : List Char → Bool
  | [] => false
  | c :: r => startsTriple (c :: r) || containsTriple r

/-- Split the text at the first occurrence of three consecutive backticks:
returns the part before the fence and the part after it.  This is the lazy
`[\s\S]*?` followed by the closing fence in the `extractCode` regular
expression. -/
def firstTripleSplit : List Char → Option (List Char × List Char)
  | [] => none
  | c :: r =>
    if startsTriple (c :: r) then some ([], (c :: r).drop 3)
    else
      match firstTripleSplit r with
      | some (b, a) => some (c :: b, a)
      | none => none

/-- Consume an expected literal sequence of characters, returning the
remainder on success. -/
def expectChars : List Char → List Char → Option (List Char)
  | [], l => some l
  | t :: ts, c :: l => if c == t then expectChars ts l else none
  | _ :: _, [] => none

/-- The `\s*\n` step of the opening fence: the JavaScript engine consumes a
greedy run of whitespace and then requires a line feed, so the interior
starts after the last line feed inside the maximal whitespace run. -/
def wsNlSplit : List Char → Option (List Char)
  | [] => none
  | c :: r =>
    if isJsWs c then
      match wsNlSplit r with
      | some out => some out
      | none => if c == '\n' then some r else none
    else none

/-- The no-tag alternative of `(?:csharp|cs)?`: straight to `\s*\n` and the
lazy interior up to the closing fence. -/
def tryFenceNone (l : List Char) : Option (List Char) :=
  match wsNlSplit l with
  | some r2 =>
    match firstTripleSplit r2 with
    | some (interior, _) => some interior
    | none => none
  | none => none

/-- The `cs` tag alternative; on failure the engine falls through to the
no-tag alternative. -/
def tryFenceCs (l : List Char) : Option (List Char) :=
  match expectChars ('c' :: 's' :: []) l with
  | some r1 =>
    match wsNlSplit r1 with
    | some r2 =>
      match firstTripleSplit r2 with
      | some (interior, _) => some interior
      | none => tryFenceNone l
    | none => tryFenceNone l
  | none => tryFenceNone l

/-- After an opening fence has been consumed, try the optional language tag
alternatives of `(?:csharp|cs)?` in the engine's order (`csharp`, then
`cs`, then no tag), each followed by `\s*\n` and the lazy interior up to
the closing fence. -/
def tryFenceTag (l : List Char) : Option (List Char) :=
  match expectChars ('c' :: 's' :: 'h' :: 'a' :: 'r' :: 'p' :: []) l with
  | some r1 =>
    match wsNlSplit r1 with
    | some r2 =>
      match firstTripleSplit r2 with
      | some (interior, _) => some interior
      | none => tryFenceCs l
    | none => tryFenceCs l
  | none => tryFenceCs l

/-- Scan for the first position at which the fenced-block pattern matches,
advancing one character at a time exactly as the JavaScript engine does. -/
def findFenceAux : List Char → Option (List Char)
  | [] => none
  | c :: r =>
    if startsTriple (c :: r) then
      match tryFenceTag ((c :: r).drop 3) with
      | some i => some i
      | none => findFenceAux r
    else findFenceAux r

/-- `text.match(/\x60\x60\x60(?:csharp|cs)?\s*\n([\s\S]*?)\x60\x60\x60/)`:
the captured interior of the first fenced code block, if any. -/
def findFence (l : List Char) : Option (List Char) := findFenceAux l

/-- One response part: the code reads `part.type` and `part.text`; a part
without a text field behaves as one with empty text (JavaScript falsiness). -/
structure Part where
  type : String
  text : String
deriving DecidableEq

/-- The concatenated text of the response: parts whose `type` is `"text"`
and whose `text` is truthy (non-empty), joined by a line feed. -/
def responseText (parts : List Part) : List Char :=
  joinNl ((parts.filter fun p => p.type == "text" && p.text != "").map fun p => p.text.data)

/-- `extractCode` from `src/unnamed/part_000` lines 44-59: return the first
fenced block's interior, end-trimmed with one line feed appended; if there
is no fenced block, the whole concatenation is treated the same way. -/
def extractCode (parts : List Part) : String :=
  match findFence (responseText parts) with
  | some interior => String.mk (jsTrimEnd interior ++ ['\n'])
  | none => String.mk (jsTrimEnd (responseText parts) ++ ['\n'])

/-- Whether the fenced-block branch of `extractCode` fires. -/
def hasFence (parts : List Part) : Bool := (findFence (responseText parts)).isSome

/-- A string ends with exactly one line feed: its last character is a line
feed and the character before it (if any) is not. -/
def endsWithOneNl (l : List Char) : Bool :=
  match l.reverse with
  | c :: rest =>
    c == '\n' &&
      (match rest with
       | d :: _ => !(d == '\n')
       | [] => true)
  | [] => false

/-- The location-and-severity tail recognised by both diagnostic regular
expressions after the `.cs` path: an opening delimiter from the class
containing both the parenthesis and the bracket, a digit run, a separator
from the class containing both the comma and the semicolon, a digit run, a
closing delimiter from the class containing both shapes, optional
whitespace, a colon, optional whitespace, the word `error` and one
whitespace character.  The record keeps every piece so that soundness of
the matcher can be stated. -/
structure LocParse where
  d1 : Char
  n1 : List Char
  sp : Char
  n2 : List Char
  d2 : Char
  wsA : List Char
  wsB : List Char
  wsc : Char
  rest : List Char
deriving DecidableEq

/-- The characters consumed by the location-and-severity tail (everything
of the line the tail matched, except the free remainder `rest`). -/
def locConsumed (t : LocParse) : List Char :=
  t.d1 :: (t.n1 ++ t.sp :: (t.n2 ++ t.d2 :: (t.wsA ++ ':' ::
    (t.wsB ++ ('e' :: 'r' :: 'r' :: 'o' :: 'r' :: []) ++ [t.wsc]))))

/-- The full text matched from the tail onwards. -/
def locFlatten (t : LocParse) : List Char := locConsumed t ++ t.rest

/-- Deterministic parse of the tail
(the sub-pattern of both regular expressions after `.cs`): every greedy run
in it is followed by a character outside the run's class, so the
JavaScript engine's behaviour is a straight maximal-run parse. -/
def parseLoc : List Char → Option LocParse
  | [] => none
  | d1 :: r1 =>
    if d1 == '(' || d1 == '[' then
      let n1 := r1.takeWhile Char.isDigit
      if n1.isEmpty then none
      else
        match r1.dropWhile Char.isDigit with
        | sp :: r3 =>
          if sp == ',' || sp == ';' then
            let n2 := r3.takeWhile Char.isDigit
            if n2.isEmpty then none
            else
              match r3.dropWhile Char.isDigit with
              | d2 :: r5 =>
                if d2 == ')' || d2 == ']' then
                  let wsA := r5.takeWhile isJsWs
                  match r5.dropWhile isJsWs with
                  | ':' :: r7 =>
                    let wsB := r7.takeWhile isJsWs
                    match r7.dropWhile isJsWs with
                    | 'e' :: 'r' :: 'r' :: 'o' :: 'r' :: wsc :: rest =>
                      if isJsWs wsc then some ⟨d1, n1, sp, n2, d2, wsA, wsB, wsc, rest⟩
                      else none
                    | _ => none
                  | _ => none
                else none
              | [] => none
          else none
        | [] => none
    else none

/-- The greedy `.*\.cs` search: find the rightmost occurrence of `.cs`
followed by a parsable tail, such that everything before it can be matched
by `.` (no line terminators).  Returns the matched leading segment
(`.*\.cs`, the capture of the first regular expression) and the parsed
tail.  Preferring the deeper recursive result realises the longest-first
backtracking of the greedy `.*`. -/
def findCs : List Char → Option (List Char × LocParse)
  | [] => none
  | c :: r =>
    if dotOk c then
      match findCs r with
      | some (p, t) => some (c :: p, t)
      | none =>
        match c, r with
        | '.', 'c' :: 's' :: r3 =>
          match parseLoc r3 with
          | some t => some (['.', 'c', 's'], t)
          | none => none
        | _, _ => none
    else none

/-- A successful match of a diagnostic line: the maximal leading
whitespace (`^\s*`), the path segment (`.*\.cs`) and the parsed tail.
Taking the maximal whitespace run first is complete: any match with a
shorter run yields one with the maximal run, and the engine prefers the
maximal run. -/
structure LineMatch where
  ws : List Char
  path : List Char
  loc : LocParse
deriving DecidableEq

/-- Match one line of compiler output against the shared shape of the two
diagnostic regular expressions (they accept exactly the same lines; they
differ only in what they capture). -/
def lineMatch (l : List Char) : Option LineMatch :=
  match findCs (l.dropWhile isJsWs) with
  | some (p, t) => some ⟨l.takeWhile isJsWs, p, t⟩
  | none => none

/-- Group 1 of the `getBuildErrors` regular expression
(`(.*\.cs[\[(]\d+[,;]\d+[\])]\s*:\s*error\s.*)`): the path segment, the
consumed tail and the trailing greedy `.*` (which stops at the first line
terminator, if the line still contains a carriage return). -/
def group1B (m : LineMatch) : List Char :=
  m.path ++ locConsumed m.loc ++ m.loc.rest.takeWhile dotOk

/-- Whether a character is one of the two opening location delimiters. -/
def isOpenDelim (c : Char) : Bool := c == '(' || c == '['

/-- `match[1].split(/[\[(]/)[0]` in `getBuildErrors`: the part of group 1
before its first opening delimiter. -/
def splitPath (m : LineMatch) : List Char :=
  (group1B m).takeWhile fun c => !isOpenDelim c

/-- `getBuildErrors` from `src/src/index.ts` lines 261-281, with the
external collaborators abstracted: `resolve` stands for node's
`path.resolve` and `output` for the captured compiler output (the code
scans stdout and stderr identically whether the build process succeeded or
not).  A line is kept when it matches the pattern and the resolved leading
segment of group 1 (up to the first opening delimiter) equals the resolved
target path; the trimmed line is recorded. -/
def getBuildErrors (resolve : String → String) (output : String) (filePath : String) :
    List String :=
  let resolved := resolve filePath
  (splitOnChar '\n' output.data).filterMap fun l =>
    match lineMatch l with
    | some m =>
      if resolve (String.mk (splitPath m)) == resolved then some (String.mk (jsTrim l))
      else none
    | none => none

/-- `getBuildErrorFiles` from `src/src/index.ts` lines 229-259, again with
`resolve` abstracted: the resolved captures (`(.*\.cs)`, the path segment)
of every matching line.  The code accumulates them in a `Set`; the list of
inserted values is recorded here and the `Set` is read through list
membership (the `printOutput` flag only logs). -/
def getBuildErrorFiles (resolve : String → String) (output : String) : List String :=
  (splitOnChar '\n' output.data).filterMap fun l =>
    match lineMatch l with
    | some m => some (resolve (String.mk m.path))
    | none => none

/-- Join segments with a separator character. -/
def joinOn (sep : Char) : List (List Char) → List Char
  | [] => []
  | [x] => x
  | x :: y :: r => x ++ sep :: joinOn sep (y :: r)

/-- Modelled from the spec: node's `path.resolve` (an external collaborator
not part of the repository source; the spec calls for resolving a leading
path segment to an absolute path, i.e. string normalization).  A relative
path is interpreted against `cwd`; `.` and empty segments are dropped and
`..` pops a segment. -/
def nodeResolve (cwd : String) (p : String) : String :=
  let full := if p.data.head? == some '/' then p.data else cwd.data ++ '/' :: p.data
  let segs := (splitOnChar '/' full).foldl
    (fun acc seg =>
      if seg = [] || seg = ['.'] then acc
      else if seg = ['.', '.'] then acc.tail
      else seg :: acc) []
  String.mk ('/' :: joinOn '/' segs.reverse)

/-- The hard-coded retry bound (`const maxRetries = 3`,
`src/src/index.ts` line 350). -/
def maxRetries : Nat := 3

/-- Oracle for the collaborators of the retry loop: the `k`-th compiler
invocation's extracted error list, the `k`-th follow-up request's result
(an exception or the extracted code) and the `k`-th retry write's result. -/
structure RetryEnv where
  build : Nat → List String
  followUp : Nat → Except Unit String
  write : Nat → Except Unit Unit

/-- How many times each collaborator ran. -/
structure Counts where
  builds : Nat
  followUps : Nat
  writes : Nat
deriving DecidableEq

/-- The retry loop of `main`, `src/src/index.ts` lines 349-379:
`for (attempt = 1; attempt <= maxRetries; attempt++)`: run the compiler;
stop when no error mentions the file; otherwise send a follow-up, write
the result, and on the final attempt run one more diagnostic check (whose
outcome is only reported).  A thrown follow-up or write escapes the loop
(to the per-file catch).  Returns the collaborator counts and whether an
exception escaped. -/
def retryGo (env : RetryEnv) (attempt : Nat) (c : Counts) : Counts × Except Unit Unit :=
  if attempt > maxRetries then (c, Except.ok ())
  else
    let errors := env.build c.builds
    let c1 : Counts := ⟨c.builds + 1, c.followUps, c.writes⟩
    if errors.isEmpty then (c1, Except.ok ())
    else
      match env.followUp c1.followUps with
      | Except.error e => (c1, Except.error e)
      | Except.ok _modified =>
        let c2 : Counts := ⟨c1.builds, c1.followUps + 1, c1.writes⟩
        match env.write c2.writes with
        | Except.error e => (c2, Except.error e)
        | Except.ok _ =>
          let c3 : Counts := ⟨c2.builds, c2.followUps, c2.writes + 1⟩
          if attempt = maxRetries then
            let _remaining := env.build c3.builds
            (⟨c3.builds + 1, c3.followUps, c3.writes⟩, Except.ok ())
          else retryGo env (attempt + 1) c3
  termination_by maxRetries + 1 - attempt

/-- The whole retry phase: attempts are 1-indexed. -/
def runRetry (env : RetryEnv) : Counts × Except Unit Unit :=
  retryGo env 1 ⟨0, 0, 0⟩

/-- Oracle for one file's processing in `main`, `src/src/index.ts`
lines 324-384: results of `readFileSync`, `createSession`, `modifyFile`,
the initial `writeFileSync`, and the retry-phase collaborators. -/
structure FileEnv where
  readResult : Except Unit String
  sessionResult : Except Unit String
  modifyResult : Except Unit String
  initialWrite : Except Unit Unit
  retry : RetryEnv

/-- The reported outcome of one file. -/
inductive Outcome where
  | noChanges
  | dryRunPreview
  | written
  | errorCaught
deriving DecidableEq

/-- Report for one processed file: the outcome and how many writes to the
file completed. -/
structure FileReport where
  outcome : Outcome
  writes : Nat
deriving DecidableEq

/-- One iteration of the file loop, `src/src/index.ts` lines 324-384.
`readFileSync` (line 328) and `createSession` (line 330) run before the
`try` block: an exception there propagates out of the loop (the
`Except.error` result) and `main`'s promise rejects, aborting the run.
Everything from `modifyFile` on (line 333) is inside the `try`; the
`catch` logs and the loop continues, which is the `Outcome.errorCaught`
report. -/
def processFile (dryRun useRetry : Bool) (e : FileEnv) : Except Unit FileReport :=
  match e.readResult with
  | Except.error u => Except.error u
  | Except.ok contents =>
    match e.sessionResult with
    | Except.error u => Except.error u
    | Except.ok _sid =>
      Except.ok <|
        match e.modifyResult with
        | Except.error _ => ⟨Outcome.errorCaught, 0⟩
        | Except.ok modified =>
          if contents == modified then ⟨Outcome.noChanges, 0⟩
          else if dryRun then ⟨Outcome.dryRunPreview, 0⟩
          else
            match e.initialWrite with
            | Except.error _ => ⟨Outcome.errorCaught, 0⟩
            | Except.ok _ =>
              if useRetry then
                match runRetry e.retry with
                | (c, Except.ok _) => ⟨Outcome.written, 1 + c.writes⟩
                | (c, Except.error _) => ⟨Outcome.errorCaught, 1 + c.writes⟩
              else ⟨Outcome.written, 1⟩

/-- The file loop itself: files processed in order; an uncaught per-file
exception aborts the whole run (no report list is produced and the
remaining files are never processed). -/
def runFiles (dryRun useRetry : Bool) : List FileEnv → Except Unit (List FileReport)
  | [] => Except.ok []
  | e :: es =>
    match processFile dryRun useRetry e with
    | Except.error u => Except.error u
    | Except.ok r =>
      match runFiles dryRun useRetry es with
      | Except.error u => Except.error u
      | Except.ok rs => Except.ok (r :: rs)

/-- The properties carried by a delta event
(`{ sessionID, delta }` in `src/test/Example.cs`). -/
structure EventProps where
  sessionID : String
  delta : String
deriving DecidableEq

/-- One event of the process-wide feed; `properties` is optional because
the code guards on its truthiness. -/
structure StreamEvent where
  type : String
  properties : Option EventProps
deriving DecidableEq

/-- The relay loop body of `modifyFile` and `sendFollowUp`
(`src/test/Example.cs` lines 51-62 and 93-104): for every event of the
feed, forward its delta to stdout exactly when the event is a
`message.part.delta`, has properties, and its session id equals the
active session. -/
def relayOutput (active : String) : List StreamEvent → List String
  | [] => []
  | e :: es =>
    match e.properties with
    | some p =>
      if e.type == "message.part.delta" && p.sessionID == active then
        p.delta :: relayOutput active es
      else relayOutput active es
    | none => relayOutput active es

/-- Oracle for one request in `modifyFile`/`sendFollowUp`: the result of
`client.event.subscribe()` (the feed, or a thrown error) and the result of
`client.session.prompt` (`data.parts`, a missing `data`, or a thrown
error). -/
structure PromptEnv where
  subscribeResult : Except Unit (List StreamEvent)
  promptResult : Except Unit (Option (List Part))

/-- What one `modifyFile`/`sendFollowUp` call did: how many prompt
requests were issued, what was forwarded live, and the returned code (or
the thrown error). -/
structure ModifyOutcome where
  promptsIssued : Nat
  forwarded : List String
  result : Except Unit String

/-- `modifyFile` (and identically `sendFollowUp`) from
`src/test/Example.cs` lines 36-117: `await client.event.subscribe()` runs
first and is not guarded, so a failed subscription throws before the
prompt is sent; otherwise the relay drains the feed while the prompt runs,
a missing `data` throws after the prompt, and the parts are passed to
`extractCode`. -/
def modifyFileRun (env : PromptEnv) (sessionId : String) : ModifyOutcome :=
  match env.subscribeResult with
  | Except.error _ => ⟨0, [], Except.error ()⟩
  | Except.ok events =>
    match env.promptResult with
    | Except.error _ => ⟨1, relayOutput sessionId events, Except.error ()⟩
    | Except.ok none => ⟨1, relayOutput sessionId events, Except.error ()⟩
    | Except.ok (some parts) => ⟨1, relayOutput sessionId events, Except.ok (extractCode parts)⟩

deriving instance DecidableEq for Except

/-- A retry oracle whose first diagnostic check already reports no errors. -/
def retryEnvQuiet : RetryEnv := ⟨fun _ => [], fun _ => Except.ok "", fun _ => Except.ok ()⟩

/-- A file whose every collaborator step succeeds. -/
def fileEnvOk : FileEnv :=
  ⟨Except.ok "original", Except.ok "sid", Except.ok "rewritten", Except.ok (), retryEnvQuiet⟩

/-- A file whose `createSession` call fails. -/
def fileEnvSessionFail : FileEnv := { fileEnvOk with sessionResult := Except.error () }

/-- A file whose `modifyFile` call (the prompt request) fails. -/
def fileEnvModifyFail : FileEnv := { fileEnvOk with modifyResult := Except.error () }


/-- A prompt oracle whose feed subscription fails while the prompt itself
would succeed. -/
def promptEnvSubFail : PromptEnv :=
  ⟨Except.error (), Except.ok (some [⟨"text", "class A { }"⟩])⟩

/-- The acceptance test of `getBuildErrors` for one line: the line matches
the diagnostic pattern and its extracted leading segment resolves to the
same string as the target path. -/
def refersToTarget (resolve : String → String) (target : String) (l : List Char) : Bool :=
  match lineMatch l with
  | some m => resolve (String.mk (splitPath m)) == resolve target
  | none => false

/-- The shape facts guaranteed for a parsed location tail: the delimiters
come from their two-character classes independently, the digit runs are
non-empty digit strings, and the whitespace runs are whitespace. -/
abbrev LocFacts (t : LocParse) : Prop :=
  (t.d1 = '(' ∨ t.d1 = '[') ∧ (t.sp = ',' ∨ t.sp = ';') ∧
    (t.d2 = ')' ∨ t.d2 = ']') ∧ t.n1 ≠ [] ∧ t.n1.all Char.isDigit ∧
    t.n2 ≠ [] ∧ t.n2.all Char.isDigit ∧ t.wsA.all isJsWs ∧ t.wsB.all isJsWs ∧
    isJsWs t.wsc = true

/-- The only two location shapes admitted by the specification: a matching
parenthesis pair or a matching bracket pair, with a comma separator. -/
def claimedLocOk (l : List Char) : Bool :=
  match lineMatch l with
  | some m =>
    (m.loc.d1 == '(' && m.loc.sp == ',' && m.loc.d2 == ')') ||
      (m.loc.d1 == '[' && m.loc.sp == ',' && m.loc.d2 == ']')
  | none => false

theorem retryGo_four (env : RetryEnv) (c : Counts) : retryGo env 4 c = (c, Except.ok ()) := by
  rw [retryGo]
  norm_num [maxRetries]

theorem retryGo_three (env : RetryEnv) (c : Counts) :
    (retryGo env 3 c).1.builds ≤ c.builds + 2 ∧
      (retryGo env 3 c).1.followUps ≤ c.followUps + 1 := by
  rw [retryGo]
  norm_num [maxRetries]
  split <;> try simp
  split <;> try simp
  split <;> simp

theorem retryGo_two (env : RetryEnv) (c : Counts) :
    (retryGo env 2 c).1.builds ≤ c.builds + 3 ∧
      (retryGo env 2 c).1.followUps ≤ c.followUps + 2 := by
  rw [retryGo]
  norm_num [maxRetries]
  split
  · simp
  split
  · simp
  split
  · simp
  have h1 := (retryGo_three env ⟨c.builds + 1, c.followUps + 1, c.writes + 1⟩).1
  have h2 := (retryGo_three env ⟨c.builds + 1, c.followUps + 1, c.writes + 1⟩).2
  simp only at h1 h2
  exact ⟨by omega, by omega⟩

theorem retryGo_one (env : RetryEnv) (c : Counts) :
    (retryGo env 1 c).1.builds ≤ c.builds + 4 ∧
      (retryGo env 1 c).1.followUps ≤ c.followUps + 3 := by
  rw [retryGo]
  norm_num [maxRetries]
  split
  · simp
  split
  · simp
  split
  · simp
  have h1 := (retryGo_two env ⟨c.builds + 1, c.followUps + 1, c.writes + 1⟩).1
  have h2 := (retryGo_two env ⟨c.builds + 1, c.followUps + 1, c.writes + 1⟩).2
  simp only at h1 h2
  exact ⟨by omega, by omega⟩

/-- Claim C1: with a retry target configured, the retry loop issues at most
`maxRetries` follow-up requests and invokes the compiler at most
`maxRetries + 2` times, whatever the diagnostic checks keep reporting. -/
theorem retry_requests_and_builds_bounded (env : RetryEnv) :
    (runRetry env).1.followUps ≤ maxRetries ∧
      (runRetry env).1.builds ≤ maxRetries + 2 := by
  have h1 := (retryGo_one env ⟨0, 0, 0⟩).1
  have h2 := (retryGo_one env ⟨0, 0, 0⟩).2
  simp only at h1 h2
  simp only [runRetry, maxRetries]
  exact ⟨by omega, by omega⟩
theorem processFile_ok (dryRun useRetry : Bool) (e : FileEnv)
    (hr : e.readResult.isOk = true) (hs : e.sessionResult.isOk = true) :
    ∃ r, processFile dryRun useRetry e = Except.ok r := by
  unfold processFile
  cases hre : e.readResult with
  | error u => simp [hre, Except.isOk, Except.toBool] at hr
  | ok contents =>
    cases hse : e.sessionResult with
    | error u => simp [hse, Except.isOk, Except.toBool] at hs
    | ok sid => exact ⟨_, rfl⟩

/-- Claim C2 counterexample: a session-creation failure for the first file
is not caught by the per-file handler (the call is outside the `try`
block): the whole run aborts and the second file is never processed, even
though every other step of both files would succeed. -/
theorem session_failure_aborts_run :
    runFiles false false [fileEnvSessionFail, fileEnvOk] = Except.error () := rfl

/-- Claim C2 amended: an exception raised inside the per-file `try` block
(prompt request failure, write failure, retry-phase failure) is caught and
reported, processing continues with every file, and a file whose prompt
request failed is left untouched; but a per-file read failure or session
creation failure is uncaught and aborts the whole run. -/
theorem per_file_errors_contained (dryRun useRetry : Bool) (envs : List FileEnv)
    (h : ∀ e ∈ envs, e.readResult.isOk = true ∧ e.sessionResult.isOk = true) :
    (∃ rs, runFiles dryRun useRetry envs = Except.ok rs ∧ rs.length = envs.length) ∧
      ∀ e ∈ envs, e.modifyResult = Except.error () →
        processFile dryRun useRetry e = Except.ok ⟨Outcome.errorCaught, 0⟩ := by
  constructor
  · induction envs with
    | nil => exact ⟨[], rfl, rfl⟩
    | cons e es ih =>
      obtain ⟨r, hr⟩ := processFile_ok dryRun useRetry e (h e (by simp)).1 (h e (by simp)).2
      obtain ⟨rs, hrs, hlen⟩ := ih (fun x hx => h x (by simp [hx]))
      exact ⟨r :: rs, by simp [runFiles, hr, hrs], by simp [hlen]⟩
  · intro e he hm
    have hr := (h e he).1
    have hs := (h e he).2
    unfold processFile
    cases hre : e.readResult with
    | error u => simp [hre, Except.isOk, Except.toBool] at hr
    | ok contents =>
      cases hse : e.sessionResult with
      | error u => simp [hse, Except.isOk, Except.toBool] at hs
      | ok sid => simp [hm]

theorem per_file_errors_contained_witness :
    (∀ e ∈ [fileEnvModifyFail], e.readResult.isOk = true ∧ e.sessionResult.isOk = true) ∧
      ((∃ rs, runFiles false false [fileEnvModifyFail] = Except.ok rs ∧
          rs.length = [fileEnvModifyFail].length) ∧
        ∀ e ∈ [fileEnvModifyFail], e.modifyResult = Except.error () →
          processFile false false e = Except.ok ⟨Outcome.errorCaught, 0⟩) :=
  ⟨by decide, per_file_errors_contained false false [fileEnvModifyFail] (by decide)⟩

/-- Claim C5: the relay loop forwards nothing from events whose session id
differs from the active session: over any (possibly truncated) portion of
the feed, dropping every event that does not carry the active session's id
leaves the forwarded output unchanged, however many foreign events are
interleaved. -/
theorem relay_never_forwards_foreign (active : String) (events : List StreamEvent) (n : Nat) :
    relayOutput active ((events.take n).filter fun e =>
        match e.properties with
        | some p => p.sessionID == active
        | none => false) =
      relayOutput active (events.take n) := by
  generalize events.take n = l
  induction l with
  | nil => rfl
  | cons e es ih =>
    cases hp : e.properties with
    | none => simpa [relayOutput, List.filter, hp] using ih
    | some p =>
      by_cases hsess : p.sessionID == active
      · by_cases hty : e.type == "message.part.delta" <;>
          simp [relayOutput, List.filter, hp, hsess, hty, ih]
      · simp only [List.filter, hp, hsess]
        simpa [relayOutput, hp, hsess, Bool.and_eq_true] using ih

/-- Claim C6 counterexample: when `client.event.subscribe()` fails, the
prompt request is never issued and `modifyFile` throws: the exchange is
not performed and no response is obtained through the synchronous return
path. -/
theorem subscribe_failure_skips_prompt :
    (modifyFileRun promptEnvSubFail "sid").promptsIssued = 0 ∧
      (modifyFileRun promptEnvSubFail "sid").result = Except.error () :=
  ⟨rfl, rfl⟩

/-- Claim C6 amended: a failure to establish the event-feed subscription
is not silently degraded: the exception propagates out of
`modifyFile`/`sendFollowUp` before the prompt is sent — no prompt request,
no live output, an error result (which the per-file handler upstream then
catches). -/
theorem subscribe_failure_propagates (env : PromptEnv) (sessionId : String)
    (h : env.subscribeResult = Except.error ()) :
    modifyFileRun env sessionId = ⟨0, [], Except.error ()⟩ := by
  unfold modifyFileRun
  rw [h]

theorem subscribe_failure_propagates_witness :
    promptEnvSubFail.subscribeResult = Except.error () ∧
      modifyFileRun promptEnvSubFail "other-session" = ⟨0, [], Except.error ()⟩ :=
  ⟨rfl, subscribe_failure_propagates promptEnvSubFail "other-session" rfl⟩

theorem filterMap_eq_filter_map {α β : Type} (f : α → Option β) (p : α → Bool) (g : α → β)
    (hf : ∀ a, f a = if p a then some (g a) else none) (L : List α) :
    L.filterMap f = (L.filter p).map g := by
  induction L with
  | nil => rfl
  | cons a l ih =>
    by_cases h : p a <;> simp [List.filterMap_cons, List.filter_cons, hf a, h, ih]

/-- Claim C3: per-file diagnostic extraction keeps exactly the lines that
match the diagnostic pattern and whose extracted path is string-equal,
after resolution, to the target path — no prefix or fuzzy comparison; the
records are the trimmed lines, in order. -/
theorem getBuildErrors_exactly_matching_lines (resolve : String → String)
    (output filePath : String) :
    getBuildErrors resolve output filePath =
      ((splitOnChar '\n' output.data).filter (refersToTarget resolve filePath)).map
        (fun l => String.mk (jsTrim l)) := by
  unfold getBuildErrors
  refine filterMap_eq_filter_map _ _ _ (fun l => ?_) _
  unfold refersToTarget
  cases lineMatch l with
  | none => rfl
  | some m => by_cases h : resolve (String.mk (splitPath m)) == resolve filePath <;> simp [h]

theorem parseLoc_sound (l : List Char) (t : LocParse) (h : parseLoc l = some t) :
    l = locFlatten t ∧ LocFacts t := by
  cases l with
  | nil => simp [parseLoc] at h
  | cons d1 r1 =>
    simp only [parseLoc] at h
    split at h
    case isTrue hd1 =>
      split at h
      case isTrue => exact absurd h (by simp)
      case isFalse hn1 =>
        split at h
        case h_2 => exact absurd h (by simp)
        case h_1 sp r3 hsplit1 =>
          split at h
          case isFalse => exact absurd h (by simp)
          case isTrue hsp =>
            split at h
            case isTrue => exact absurd h (by simp)
            case isFalse hn2 =>
              split at h
              case h_2 => exact absurd h (by simp)
              case h_1 d2 r5 hsplit2 =>
                split at h
                case isFalse => exact absurd h (by simp)
                case isTrue hd2 =>
                  split at h
                  case h_2 => exact absurd h (by simp)
                  case h_1 r7 hsplit3 =>
                    split at h
                    case h_2 => exact absurd h (by simp)
                    case h_1 wsc rest hsplit4 =>
                      split at h
                      case isFalse => exact absurd h (by simp)
                      case isTrue hwsc =>
                        obtain ⟨rfl⟩ : t = ⟨d1, r1.takeWhile Char.isDigit, sp,
                            r3.takeWhile Char.isDigit, d2, r5.takeWhile isJsWs,
                            r7.takeWhile isJsWs, wsc, rest⟩ := by
                          cases h; rfl
                        have e1 := (List.takeWhile_append_dropWhile
                          (p := Char.isDigit) (l := r1)).symm
                        rw [hsplit1] at e1
                        have e2 := (List.takeWhile_append_dropWhile
                          (p := Char.isDigit) (l := r3)).symm
                        rw [hsplit2] at e2
                        have e3 := (List.takeWhile_append_dropWhile
                          (p := isJsWs) (l := r5)).symm
                        rw [hsplit3] at e3
                        have e4 := (List.takeWhile_append_dropWhile
                          (p := isJsWs) (l := r7)).symm
                        rw [hsplit4] at e4
                        refine ⟨?_, ?_, ?_, ?_, ?_, ?_, ?_, ?_, ?_, ?_, hwsc⟩
                        · conv_lhs => rw [e1, e2, e3, e4]
                          simp [locFlatten, locConsumed]
                        · simpa using hd1
                        · simpa using hsp
                        · simpa using hd2
                        · simpa using hn1
                        · exact List.all_eq_true.mpr
                            fun x hx => List.mem_takeWhile_imp hx
                        · simpa using hn2
                        · exact List.all_eq_true.mpr
                            fun x hx => List.mem_takeWhile_imp hx
                        · exact List.all_eq_true.mpr
                            fun x hx => List.mem_takeWhile_imp hx
                        · exact List.all_eq_true.mpr
                            fun x hx => List.mem_takeWhile_imp hx
    case isFalse => exact absurd h (by simp)

theorem findCs_sound (l : List Char) (p : List Char) (t : LocParse)
    (h : findCs l = some (p, t)) :
    l = p ++ locFlatten t ∧ (∃ q, p = q ++ ['.', 'c', 's']) ∧ LocFacts t := by
  induction l generalizing p with
  | nil => simp [findCs] at h
  | cons c r ih =>
    simp only [findCs] at h
    split at h
    case isFalse => exact absurd h (by simp)
    case isTrue hdot =>
      split at h
      case h_1 p' t' hrec =>
        obtain ⟨rfl, rfl⟩ : p = c :: p' ∧ t = t' := by cases h; exact ⟨rfl, rfl⟩
        obtain ⟨hl, ⟨q, hq⟩, hf⟩ := ih _ hrec
        exact ⟨by simp [hl], ⟨c :: q, by simp [hq]⟩, hf⟩
      case h_2 hnone =>
        split at h
        case h_1 r3 =>
          split at h
          case h_1 t0 hparse =>
            obtain ⟨rfl, rfl⟩ : p = ['.', 'c', 's'] ∧ t = t0 := by cases h; exact ⟨rfl, rfl⟩
            obtain ⟨hl, hf⟩ := parseLoc_sound _ _ hparse
            exact ⟨by simp [hl], ⟨[], rfl⟩, hf⟩
          case h_2 => exact absurd h (by simp)
        case h_2 => exact absurd h (by simp)

theorem lineMatch_sound (l : List Char) (m : LineMatch) (h : lineMatch l = some m) :
    l = m.ws ++ m.path ++ locFlatten m.loc ∧ m.ws.all isJsWs ∧
      (∃ q, m.path = q ++ ['.', 'c', 's']) ∧ LocFacts m.loc := by
  unfold lineMatch at h
  split at h
  case h_2 => exact absurd h (by simp)
  case h_1 p t hcs =>
    obtain ⟨rfl⟩ : m = ⟨l.takeWhile isJsWs, p, t⟩ := by cases h; rfl
    obtain ⟨hl, hq, hf⟩ := findCs_sound _ _ _ hcs
    refine ⟨?_, ?_, hq, hf⟩
    · conv_lhs => rw [← List.takeWhile_append_dropWhile (p := isJsWs) (l := l), hl]
      simp
    · exact List.all_eq_true.mpr fun x hx => List.mem_takeWhile_imp hx

/-- Claim C9 counterexample: a line whose location is written `(1;2]` —
mismatched delimiters and a semicolon separator, neither of the two
claimed notations — still yields a diagnostic record. -/
theorem mismatched_delimiters_accepted :
    getBuildErrors (nodeResolve "/") "/tmp/F.cs(1;2]: error CS1: x" "/tmp/F.cs" =
        ["/tmp/F.cs(1;2]: error CS1: x"] ∧
      claimedLocOk ("/tmp/F.cs(1;2]: error CS1: x").data = false := by
  constructor
  · rfl
  · rfl

/-- Claim C9 amended: a line yields a diagnostic record only if its
location matches the generalized grammar in which the opening delimiter is
a parenthesis or a bracket, the separator a comma or a semicolon, and the
closing delimiter a parenthesis or a bracket, each chosen independently
(so all eight combinations are treated interchangeably), followed by a
colon and the severity keyword `error`; the leading segment ends in
`.cs`. -/
theorem record_only_for_delimiter_grammar (resolve : String → String)
    (output filePath : String) (h : getBuildErrors resolve output filePath ≠ []) :
    ∃ l ∈ splitOnChar '\n' output.data, ∃ m : LineMatch, lineMatch l = some m ∧
      l = m.ws ++ m.path ++ locFlatten m.loc ∧ (∃ q, m.path = q ++ ['.', 'c', 's']) ∧
      LocFacts m.loc := by
  obtain ⟨x, hx⟩ := List.exists_mem_of_ne_nil _ h
  obtain ⟨l, hl, hfl⟩ := List.mem_filterMap.mp hx
  refine ⟨l, hl, ?_⟩
  cases hm : lineMatch l with
  | none => rw [hm] at hfl; exact absurd hfl (by simp)
  | some m =>
    obtain ⟨h1, _hws, hq, hf⟩ := lineMatch_sound l m hm
    exact ⟨m, rfl, h1, hq, hf⟩

theorem record_only_for_delimiter_grammar_witness :
    getBuildErrors (nodeResolve "/") "/x/F.cs[7,8]: error CS2: y" "/x/F.cs" ≠ [] ∧
      (∃ l ∈ splitOnChar '\n' ("/x/F.cs[7,8]: error CS2: y" : String).data,
        ∃ m : LineMatch, lineMatch l = some m ∧
          l = m.ws ++ m.path ++ locFlatten m.loc ∧
          (∃ q, m.path = q ++ ['.', 'c', 's']) ∧ LocFacts m.loc) :=
  ⟨by decide, record_only_for_delimiter_grammar (nodeResolve "/")
    "/x/F.cs[7,8]: error CS2: y" "/x/F.cs" (by decide)⟩

theorem takeWhile_append_stop {p : Char → Bool} (a : List Char) (b : Char) (r : List Char)
    (ha : ∀ c ∈ a, p c = true) (hb : p b = false) :
    (a ++ b :: r).takeWhile p = a := by
  induction a with
  | nil => simp [List.takeWhile_cons, hb]
  | cons x xs ih =>
    simp only [List.cons_append, List.takeWhile_cons, ha x (by simp)]
    simp [ih fun c hc => ha c (by simp [hc])]

theorem splitPath_eq_path (m : LineMatch) (hf : LocFacts m.loc)
    (hp : m.path.all (fun c => !isOpenDelim c) = true) :
    splitPath m = m.path := by
  have hd1 : isOpenDelim m.loc.d1 = true := by
    rcases hf.1 with h | h <;> simp [isOpenDelim, h]
  unfold splitPath group1B locConsumed
  rw [show m.path ++ (m.loc.d1 :: (m.loc.n1 ++ m.loc.sp :: (m.loc.n2 ++ m.loc.d2 ::
      (m.loc.wsA ++ ':' :: (m.loc.wsB ++ ('e' :: 'r' :: 'r' :: 'o' :: 'r' :: []) ++
        [m.loc.wsc]))))) ++ m.loc.rest.takeWhile dotOk =
    m.path ++ m.loc.d1 :: ((m.loc.n1 ++ m.loc.sp :: (m.loc.n2 ++ m.loc.d2 ::
      (m.loc.wsA ++ ':' :: (m.loc.wsB ++ ('e' :: 'r' :: 'r' :: 'o' :: 'r' :: []) ++
        [m.loc.wsc])))) ++ m.loc.rest.takeWhile dotOk) from by simp]
  exact takeWhile_append_stop _ _ _ (fun c hc => List.all_eq_true.mp hp c hc)
    (by simp [hd1])

/-- Claim C10 counterexample: on the line `/a(b.cs(1,2): error CS1: m`,
the whole-output mode records the regex capture `/a(b.cs`, while the
per-file mode compares against the segment before the first opening
delimiter, `/a`; so for target `/a` the per-file extraction is non-empty
although `/a` is not in the error-file set. -/
theorem errorFiles_membership_differs :
    getBuildErrors (nodeResolve "/") "/a(b.cs(1,2): error CS1: m" "/a" ≠ [] ∧
      ¬ (nodeResolve "/" "/a") ∈
        getBuildErrorFiles (nodeResolve "/") "/a(b.cs(1,2): error CS1: m" := by
  constructor
  · decide
  · decide

/-- Claim C10 amended: the equivalence holds for outputs whose matching
lines have no opening delimiter inside the captured path segment (then the
two path extractions coincide): the resolved target is in the error-file
set exactly when per-file extraction returns a record. -/
theorem errorFiles_membership_iff (resolve : String → String) (output filePath : String)
    (h : ((splitOnChar '\n' output.data).all fun l =>
        match lineMatch l with
        | some m => m.path.all fun c => !isOpenDelim c
        | none => true) = true) :
    resolve filePath ∈ getBuildErrorFiles resolve output ↔
      getBuildErrors resolve output filePath ≠ [] := by
  have hall := List.all_eq_true.mp h
  constructor
  · intro hmem
    obtain ⟨l, hl, hfl⟩ := List.mem_filterMap.mp hmem
    cases hm : lineMatch l with
    | none => rw [hm] at hfl; exact absurd hfl (by simp)
    | some m =>
      rw [hm] at hfl
      have hpath : m.path.all (fun c => !isOpenDelim c) = true := by
        have := hall l hl
        rw [hm] at this
        exact this
      have hsp := splitPath_eq_path m (lineMatch_sound l m hm).2.2.2 hpath
      have heq : resolve (String.mk m.path) = resolve filePath := by
        simpa using hfl
      refine List.ne_nil_of_mem (a := String.mk (jsTrim l)) ?_
      refine List.mem_filterMap.mpr ⟨l, hl, ?_⟩
      rw [hm]
      show (if (resolve (String.mk (splitPath m)) == resolve filePath) = true
          then some (String.mk (jsTrim l)) else none) = some (String.mk (jsTrim l))
      rw [hsp, heq]
      simp
  · intro hne
    obtain ⟨x, hx⟩ := List.exists_mem_of_ne_nil _ hne
    obtain ⟨l, hl, hfl⟩ := List.mem_filterMap.mp hx
    cases hm : lineMatch l with
    | none => rw [hm] at hfl; exact absurd hfl (by simp)
    | some m =>
      rw [hm] at hfl
      have hpath : m.path.all (fun c => !isOpenDelim c) = true := by
        have := hall l hl
        rw [hm] at this
        exact this
      have hsp := splitPath_eq_path m (lineMatch_sound l m hm).2.2.2 hpath
      have hfl2 : (if (resolve (String.mk (splitPath m)) == resolve filePath) = true
          then some (String.mk (jsTrim l)) else none) = some x := hfl
      have hcond : (resolve (String.mk (splitPath m)) == resolve filePath) = true := by
        by_contra hc
        rw [if_neg (by simpa using hc)] at hfl2
        exact absurd hfl2 (by simp)
      rw [hsp] at hcond
      refine List.mem_filterMap.mpr ⟨l, hl, ?_⟩
      rw [hm]
      show some (resolve (String.mk m.path)) = some (resolve filePath)
      rw [beq_iff_eq.mp hcond]

theorem errorFiles_membership_iff_witness :
    (((splitOnChar '\n' ("/w/P.cs(3,4): error CS0: boom" : String).data).all fun l =>
        match lineMatch l with
        | some m => m.path.all fun c => !isOpenDelim c
        | none => true) = true) ∧
      (nodeResolve "/" "/w/P.cs" ∈
          getBuildErrorFiles (nodeResolve "/") "/w/P.cs(3,4): error CS0: boom" ↔
        getBuildErrors (nodeResolve "/") "/w/P.cs(3,4): error CS0: boom" "/w/P.cs" ≠ []) :=
  ⟨by decide, errorFiles_membership_iff (nodeResolve "/")
    "/w/P.cs(3,4): error CS0: boom" "/w/P.cs" (by decide)⟩


theorem startsTriple_append_of (x b : List Char) (h : startsTriple x = true) :
    startsTriple (x ++ b) = true := by
  match x with
  | [] => simp [startsTriple] at h
  | [a] => simp [startsTriple] at h
  | [a, b'] => simp [startsTriple] at h
  | a :: b' :: c :: r => simpa [startsTriple] using h

theorem startsTriple_append_take (x y : List Char) (hx : x ≠ []) :
    startsTriple (x ++ y.take 2) = startsTriple (x ++ y) := by
  match x with
  | [] => exact absurd rfl hx
  | [a] =>
    match y with
    | [] => rfl
    | [b] => rfl
    | b :: c :: r => rfl
  | [a, b'] =>
    match y with
    | [] => rfl
    | c :: r => rfl
  | a :: b' :: c :: r' =>
    match y with
    | [] => rfl
    | c2 :: r2 => rfl

theorem containsTriple_mono (a b : List Char) (h : containsTriple (a ++ b) = false) :
    containsTriple a = false := by
  induction a with
  | nil => rfl
  | cons c a' ih =>
    simp only [List.cons_append, containsTriple, Bool.or_eq_false_iff, List.append_eq] at h
    have h2 := ih h.2
    simp only [containsTriple, Bool.or_eq_false_iff]
    refine ⟨?_, h2⟩
    by_contra hc
    have := startsTriple_append_of (c :: a') b (by revert hc; cases startsTriple (c :: a') <;> simp)
    rw [List.cons_append] at this
    rw [this] at h
    exact absurd h.1 (by simp)

theorem containsTriple_append_sep (a b : List Char) (c : Char) (hc : (c == bt) = false)
    (ha : containsTriple a = false) (hb : containsTriple b = false) :
    containsTriple (a ++ c :: b) = false := by
  induction a with
  | nil =>
    have hst : startsTriple (c :: b) = false := by
      match b with
      | [] => rfl
      | [x] => rfl
      | x :: y :: b' => simp [startsTriple, hc]
    simp [containsTriple, hst, hb]
  | cons x a' ih =>
    simp only [containsTriple, Bool.or_eq_false_iff] at ha
    have ih' := ih ha.2
    simp only [List.cons_append, containsTriple, Bool.or_eq_false_iff]
    refine ⟨?_, ih'⟩
    match a' with
    | [] =>
      match b with
      | [] => simp [startsTriple, hc]
      | y :: b' => simp [startsTriple, hc]
    | [z] => simp [startsTriple, hc]
    | z :: w :: a'' => simpa [startsTriple] using ha.1

theorem firstTripleSplit_sound (l : List Char) (b a : List Char)
    (h : firstTripleSplit l = some (b, a)) :
    containsTriple b = false ∧ l = b ++ bt :: bt :: bt :: a := by
  induction l generalizing b with
  | nil => simp [firstTripleSplit] at h
  | cons c r ih =>
    simp only [firstTripleSplit] at h
    split at h
    case isTrue hst =>
      obtain ⟨rfl, rfl⟩ : b = [] ∧ a = (c :: r).drop 3 := by cases h; exact ⟨rfl, rfl⟩
      match r, hst with
      | x :: y :: r'', hst =>
        simp only [startsTriple, Bool.and_eq_true, beq_iff_eq] at hst
        obtain ⟨⟨rfl, rfl⟩, rfl⟩ := hst
        exact ⟨rfl, rfl⟩
    case isFalse hst =>
      split at h
      case h_1 b' a' hrec =>
        obtain ⟨rfl, rfl⟩ : b = c :: b' ∧ a = a' := by cases h; exact ⟨rfl, rfl⟩
        obtain ⟨hb', hl⟩ := ih _ hrec
        constructor
        · simp only [containsTriple, Bool.or_eq_false_iff]
          refine ⟨?_, hb'⟩
          match b', hl with
          | [], hl => -- r = bt::bt::bt::a ; startsTriple (c::b') = startsTriple [c] = false
            rfl
          | [x], hl => rfl
          | x :: y :: b'', hl =>
            -- startsTriple (c::x::y::...) equals startsTriple (c::r) since r = x::y::...
            rw [hl] at hst
            simpa [startsTriple] using fun h1 h2 h3 => hst (by simp [startsTriple, h1, h2, h3])
        · rw [hl]
          rfl
      case h_2 => exact absurd h (by simp)

theorem firstTripleSplit_through (a r : List Char) (ha : ∀ c ∈ a, (c == bt) = false) :
    firstTripleSplit (a ++ bt :: bt :: bt :: r) = some (a, r) := by
  induction a with
  | nil => simp [firstTripleSplit, startsTriple]
  | cons c a' ih =>
    have hc := ha c (by simp)
    have hst : startsTriple (c :: (a' ++ bt :: bt :: bt :: r)) = false := by
      match a' with
      | [] => simp [startsTriple, hc]
      | [x] => simp [startsTriple, hc]
      | x :: y :: a'' => simp [startsTriple, hc]
    simp only [List.cons_append, firstTripleSplit, List.append_eq, hst,
      Bool.false_eq_true, if_false]
    rw [ih fun x hx => ha x (by simp [hx])]

theorem findFenceAux_append (p q : List Char)
    (h : containsTriple (p ++ q.take 2) = false) :
    findFenceAux (p ++ q) = findFenceAux q := by
  induction p with
  | nil => rfl
  | cons c p' ih =>
    simp only [List.cons_append, containsTriple, Bool.or_eq_false_iff, List.append_eq] at h
    have hst : startsTriple (c :: (p' ++ q)) = false := by
      have ht := startsTriple_append_take (c :: p') q (by simp)
      simp only [List.cons_append] at ht
      rw [← ht]
      exact h.1
    simp only [List.cons_append, findFenceAux, List.append_eq, hst, Bool.false_eq_true,
      if_false]
    exact ih h.2

theorem tryFenceNone_no_triple (l i : List Char) (h : tryFenceNone l = some i) :
    containsTriple i = false := by
  unfold tryFenceNone at h
  split at h
  case h_2 => exact absurd h (by simp)
  case h_1 r2 hws =>
    split at h
    case h_2 => exact absurd h (by simp)
    case h_1 iv rv hsplit =>
      cases h
      exact (firstTripleSplit_sound _ _ _ hsplit).1

theorem tryFenceCs_no_triple (l i : List Char) (h : tryFenceCs l = some i) :
    containsTriple i = false := by
  unfold tryFenceCs at h
  split at h
  case h_2 => exact tryFenceNone_no_triple l i h
  case h_1 r1 hex =>
    split at h
    case h_2 => exact tryFenceNone_no_triple l i h
    case h_1 r2 hws =>
      split at h
      case h_2 => exact tryFenceNone_no_triple l i h
      case h_1 iv rv hsplit =>
        cases h
        exact (firstTripleSplit_sound _ _ _ hsplit).1

theorem tryFenceTag_no_triple (l i : List Char) (h : tryFenceTag l = some i) :
    containsTriple i = false := by
  unfold tryFenceTag at h
  split at h
  case h_2 => exact tryFenceCs_no_triple l i h
  case h_1 r1 hex =>
    split at h
    case h_2 => exact tryFenceCs_no_triple l i h
    case h_1 r2 hws =>
      split at h
      case h_2 => exact tryFenceCs_no_triple l i h
      case h_1 iv rv hsplit =>
        cases h
        exact (firstTripleSplit_sound _ _ _ hsplit).1

theorem findFenceAux_no_triple (l i : List Char) (h : findFenceAux l = some i) :
    containsTriple i = false := by
  induction l with
  | nil => simp [findFenceAux] at h
  | cons c r ih =>
    simp only [findFenceAux] at h
    split at h
    case isFalse => exact ih h
    case isTrue =>
      split at h
      case h_1 i0 htag =>
        cases h
        exact tryFenceTag_no_triple _ _ htag
      case h_2 => exact ih h

theorem dropWhile_head_false (p : Char → Bool) (l : List Char) (c : Char) (r : List Char)
    (h : l.dropWhile p = c :: r) : p c = false := by
  induction l with
  | nil => simp [List.dropWhile] at h
  | cons x xs ih =>
    rw [List.dropWhile_cons] at h
    split at h
    case isTrue hp => exact ih h
    case isFalse hp =>
      cases h
      simpa using hp

theorem jsTrimEnd_split (l : List Char) : ∃ s, l = jsTrimEnd l ++ s := by
  refine ⟨(l.reverse.takeWhile isJsWs).reverse, ?_⟩
  unfold jsTrimEnd
  rw [← List.reverse_append, List.takeWhile_append_dropWhile, List.reverse_reverse]

theorem endsWithOneNl_trimEnd (l : List Char) :
    endsWithOneNl (jsTrimEnd l ++ ['\n']) = true := by
  unfold endsWithOneNl
  rw [List.reverse_append]
  simp only [List.reverse_cons, List.reverse_nil, List.nil_append, List.singleton_append]
  have hrev : (jsTrimEnd l).reverse = l.reverse.dropWhile isJsWs := by
    unfold jsTrimEnd
    rw [List.reverse_reverse]
  rw [hrev]
  cases hd : l.reverse.dropWhile isJsWs with
  | nil => simp
  | cons c r =>
    have hc := dropWhile_head_false isJsWs l.reverse c r hd
    have : (c == '\n') = false := by
      by_contra hb
      have : c = '\n' := by simpa using hb
      rw [this] at hc
      simp [isJsWs] at hc
    simp [this]

theorem dropWhile_all_false (p : Char → Bool) (l : List Char) (h : ∀ c ∈ l, p c = false) :
    l.dropWhile p = l := by
  cases l with
  | nil => rfl
  | cons x xs => rw [List.dropWhile_cons, if_neg (by simp [h x (by simp)])]

theorem jsTrimEnd_nonws (b : List Char) (hb : ∀ c ∈ b, isJsWs c = false) :
    jsTrimEnd (b ++ ['\n']) = b := by
  unfold jsTrimEnd
  rw [List.reverse_append]
  simp only [List.reverse_cons, List.reverse_nil, List.nil_append, List.singleton_append,
    List.dropWhile_cons]
  rw [if_pos (by simp [isJsWs])]
  rw [dropWhile_all_false isJsWs b.reverse fun c hc => hb c (by simpa using hc),
    List.reverse_reverse]

/-- Claim C4 counterexample: parts with no fenced block take the fallback
branch, which keeps any fence markers the text contains: the extracted
string here contains three consecutive backticks. -/
theorem fallback_keeps_fence_markers :
    extractCode [⟨"text", "a```b"⟩] = "a```b\n" ∧
      containsTriple ("a```b\n" : String).data = true :=
  ⟨rfl, rfl⟩

/-- Claim C4 amended: the extractor's output always ends with exactly one
line-feed character, and in the fenced-block branch it contains no fence
markers; the no-fenced-block fallback may retain fence markers present in
the concatenated text. -/
theorem extractCode_newline_and_fence (parts : List Part) :
    endsWithOneNl (extractCode parts).data = true ∧
      (hasFence parts = true → containsTriple (extractCode parts).data = false) := by
  constructor
  · unfold extractCode
    cases h : findFence (responseText parts) with
    | none => exact endsWithOneNl_trimEnd (responseText parts)
    | some interior0 => exact endsWithOneNl_trimEnd interior0
  · intro hf
    unfold hasFence at hf
    rw [Option.isSome_iff_exists] at hf
    obtain ⟨i, hi⟩ := hf
    unfold extractCode
    rw [hi]
    show containsTriple (jsTrimEnd i ++ ['\n']) = false
    have h1 : containsTriple i = false := findFenceAux_no_triple _ _ hi
    obtain ⟨s, hs⟩ := jsTrimEnd_split i
    have h2 : containsTriple (jsTrimEnd i) = false := by
      rw [hs] at h1
      exact containsTriple_mono _ _ h1
    exact containsTriple_append_sep _ [] '\n' (by decide) h2 rfl

theorem extractCode_newline_and_fence_witness :
    hasFence [⟨"text", "```\nbody\n```"⟩] = true ∧
      (endsWithOneNl (extractCode [⟨"text", "```\nbody\n```"⟩]).data = true ∧
        containsTriple (extractCode [⟨"text", "```\nbody\n```"⟩]).data = false) :=
  ⟨by decide,
    (extractCode_newline_and_fence [⟨"text", "```\nbody\n```"⟩]).1,
    (extractCode_newline_and_fence [⟨"text", "```\nbody\n```"⟩]).2 (by decide)⟩


theorem startsTriple_head_false (c : Char) (t : List Char) (hc : (c == bt) = false) :
    startsTriple (c :: t) = false := by
  match t with
  | [] => rfl
  | [x] => rfl
  | x :: y :: r => simp [startsTriple, hc]

theorem containsTriple_nonbt_append (p s : List Char) (hp : ∀ c ∈ p, (c == bt) = false) :
    containsTriple (p ++ s) = containsTriple s := by
  induction p with
  | nil => rfl
  | cons c p' ih =>
    simp only [List.cons_append, containsTriple,
      startsTriple_head_false c _ (hp c (by simp)), Bool.false_or]
    exact ih fun x hx => hp x (by simp [hx])

theorem wsNlSplit_nl_nonws (c0 : Char) (y : List Char) (hc : isJsWs c0 = false) :
    wsNlSplit ('\n' :: c0 :: y) = some (c0 :: y) := by
  simp only [wsNlSplit]
  rw [if_pos (by simp [isJsWs]), if_neg (by simp [hc])]
  simp

theorem firstTripleSplit_body (body rest : List Char)
    (hb : ∀ c ∈ body, (c == bt) = false) :
    firstTripleSplit (body ++ '\n' :: bt :: bt :: bt :: rest) = some (body ++ ['\n'], rest) := by
  have := firstTripleSplit_through (body ++ ['\n']) rest
    (fun c hc => by
      rcases List.mem_append.mp hc with h | h
      · exact hb c h
      · simp only [List.mem_singleton] at h
        subst h
        decide)
  simpa using this

theorem expectChars_csharp (w : List Char) :
    expectChars ('c' :: 's' :: 'h' :: 'a' :: 'r' :: 'p' :: []) ('c' :: 's' :: 'h' :: 'a' :: 'r' :: 'p' :: w) = some w := by
  simp [expectChars]

theorem expectChars_cs (w : List Char) :
    expectChars ('c' :: 's' :: []) ('c' :: 's' :: w) = some w := by
  simp [expectChars]

theorem findFenceAux_block_csharp (c0 : Char) (body rest : List Char)
    (hws : isJsWs c0 = false) (hb : ∀ c ∈ c0 :: body, (c == bt) = false) :
    findFenceAux (bt :: bt :: bt :: 'c' :: 's' :: 'h' :: 'a' :: 'r' :: 'p' :: '\n' ::
      ((c0 :: body) ++ '\n' :: bt :: bt :: bt :: rest)) = some ((c0 :: body) ++ ['\n']) := by
  have hws2 := wsNlSplit_nl_nonws c0 (body ++ '\n' :: bt :: bt :: bt :: rest) hws
  have hfts := firstTripleSplit_body (c0 :: body) rest hb
  simp only [List.cons_append] at hfts ⊢
  simp only [findFenceAux]
  rw [if_pos (by simp [startsTriple])]
  simp only [tryFenceTag, List.drop_succ_cons, List.drop_zero, expectChars_csharp,
    hws2, hfts]

theorem findFenceAux_block_cs (c0 : Char) (body rest : List Char)
    (hws : isJsWs c0 = false) (hb : ∀ c ∈ c0 :: body, (c == bt) = false) :
    findFenceAux (bt :: bt :: bt :: 'c' :: 's' :: '\n' ::
      ((c0 :: body) ++ '\n' :: bt :: bt :: bt :: rest)) = some ((c0 :: body) ++ ['\n']) := by
  have hws2 := wsNlSplit_nl_nonws c0 (body ++ '\n' :: bt :: bt :: bt :: rest) hws
  have hfts := firstTripleSplit_body (c0 :: body) rest hb
  simp only [List.cons_append] at hfts ⊢
  simp only [findFenceAux]
  rw [if_pos (by simp [startsTriple])]
  have hcsharp : expectChars ('c' :: 's' :: 'h' :: 'a' :: 'r' :: 'p' :: [])
      ('c' :: 's' :: '\n' :: c0 :: (body ++ '\n' :: bt :: bt :: bt :: rest)) = none := by
    simp [expectChars]
  simp only [tryFenceTag, tryFenceCs, List.drop_succ_cons, List.drop_zero, hcsharp,
    expectChars_cs, hws2, hfts]

theorem findFenceAux_block_untagged (c0 : Char) (body rest : List Char)
    (hws : isJsWs c0 = false) (hb : ∀ c ∈ c0 :: body, (c == bt) = false) :
    findFenceAux (bt :: bt :: bt :: '\n' ::
      ((c0 :: body) ++ '\n' :: bt :: bt :: bt :: rest)) = some ((c0 :: body) ++ ['\n']) := by
  have hws2 := wsNlSplit_nl_nonws c0 (body ++ '\n' :: bt :: bt :: bt :: rest) hws
  have hfts := firstTripleSplit_body (c0 :: body) rest hb
  simp only [List.cons_append] at hfts ⊢
  simp only [findFenceAux]
  rw [if_pos (by simp [startsTriple])]
  have hcsharp : expectChars ('c' :: 's' :: 'h' :: 'a' :: 'r' :: 'p' :: [])
      ('\n' :: c0 :: (body ++ '\n' :: bt :: bt :: bt :: rest)) = none := by
    simp [expectChars]
  have hcs : expectChars ('c' :: 's' :: [])
      ('\n' :: c0 :: (body ++ '\n' :: bt :: bt :: bt :: rest)) = none := by
    simp [expectChars]
  simp only [tryFenceTag, tryFenceCs, tryFenceNone, List.drop_succ_cons, List.drop_zero,
    hcsharp, hcs, hws2, hfts]

theorem startsTriple_second_false (a c : Char) (x : List Char) (hc : (c == bt) = false) :
    startsTriple (a :: c :: x) = false := by
  match x with
  | [] => rfl
  | y :: r => simp [startsTriple, hc]

theorem tryFenceTag_head_fail (c0 : Char) (t : List Char)
    (hct : (c0 == 'c') = false) (hws : isJsWs c0 = false) :
    tryFenceTag (c0 :: t) = none := by
  simp only [tryFenceTag, tryFenceCs, tryFenceNone, expectChars, wsNlSplit, hct, hws,
    Bool.false_eq_true, if_false]

theorem findFenceAux_reject (c0 : Char) (mid : List Char)
    (hct : (c0 == 'c') = false) (hws : isJsWs c0 = false)
    (hc0 : (c0 == bt) = false) (hmid : ∀ c ∈ mid, (c == bt) = false) :
    findFenceAux (bt :: bt :: bt :: c0 :: (mid ++ bt :: bt :: bt :: [])) = none := by
  simp only [findFenceAux]
  rw [if_pos (by simp [startsTriple])]
  simp only [List.drop_succ_cons, List.drop_zero,
    tryFenceTag_head_fail c0 _ hct hws]
  rw [if_neg (by simp [startsTriple, hc0])]
  rw [if_neg (by simp [startsTriple_second_false bt c0 _ hc0])]
  rw [if_neg (by simp [startsTriple_head_false c0 _ hc0])]
  have hskip := findFenceAux_append mid (bt :: bt :: bt :: [])
    (by
      rw [containsTriple_nonbt_append mid _ hmid]
      decide)
  rw [hskip]
  decide

theorem bt_eq : bt = '\x60' := rfl

theorem findFence_pre_block (pre rest : List Char) (h : containsTriple pre = false) :
    findFenceAux (pre ++ '\n' :: (bt :: bt :: bt :: 'c' :: 's' :: 'h' :: 'a' :: 'r' :: 'p' ::
      '\n' :: 'X' :: '\n' :: bt :: bt :: bt :: rest)) = some ['X', '\n'] := by
  have hq := findFenceAux_block_csharp 'X' [] rest (by decide) (by decide)
  simp only [List.cons_append, List.nil_append] at hq
  have happ := findFenceAux_append (pre ++ ['\n'])
    (bt :: bt :: bt :: 'c' :: 's' :: 'h' :: 'a' :: 'r' :: 'p' ::
      '\n' :: 'X' :: '\n' :: bt :: bt :: bt :: rest)
    (by
      have hsep := containsTriple_append_sep pre [bt, bt] '\n' (by decide) h (by decide)
      simpa using hsep)
  simp only [List.append_assoc, List.singleton_append] at happ
  rw [happ, hq]

/-- Claim C7 amended: provided the preamble contains no fence marker
(three consecutive backticks), the extractor returns exactly the fenced
interior `X` with one line feed, for every preamble and trailer. -/
theorem extract_block_clean_preamble (pre trail : String)
    (h : containsTriple pre.data = false) :
    extractCode [⟨"text", pre⟩, ⟨"text", "```csharp\nX\n```"⟩, ⟨"text", trail⟩] = "X\n" := by
  have hblock : ("```csharp\nX\n```" : String).data =
      bt :: bt :: bt :: 'c' :: 's' :: 'h' :: 'a' :: 'r' :: 'p' :: '\n' :: 'X' ::
        '\n' :: bt :: bt :: bt :: [] := by decide
  by_cases hpre : pre = ""
  · by_cases htrail : trail = ""
    · subst hpre; subst htrail
      decide
    · subst hpre
      have ht : (trail != "") = true := bne_iff_ne.mpr htrail
      unfold extractCode responseText findFence
      simp only [List.filter_cons, List.filter_nil, List.map_cons, List.map_nil, ht,
        Bool.and_true, Bool.and_false, joinNl]
      norm_num
      have hq := findFenceAux_block_csharp 'X' [] ('\n' :: trail.data) (by decide) (by decide)
      simp only [List.cons_append, List.nil_append, bt_eq] at hq
      rw [hq]
      show String.mk (jsTrimEnd ['X', '\n'] ++ ['\n']) = "X\n"
      decide
  · have hp : (pre != "") = true := bne_iff_ne.mpr hpre
    by_cases htrail : trail = ""
    · subst htrail
      unfold extractCode responseText findFence
      simp only [List.filter_cons, List.filter_nil, List.map_cons, List.map_nil, hp,
        Bool.and_true, Bool.and_false, joinNl]
      have hq := findFence_pre_block pre.data [] h
      simp only [List.cons_append, List.nil_append, bt_eq] at hq
      rw [hq]
      show String.mk (jsTrimEnd ['X', '\n'] ++ ['\n']) = "X\n"
      decide
    · have ht : (trail != "") = true := bne_iff_ne.mpr htrail
      unfold extractCode responseText findFence
      simp only [List.filter_cons, List.filter_nil, List.map_cons, List.map_nil, hp, ht,
        Bool.and_true, Bool.and_false, joinNl]
      norm_num
      have hq := findFence_pre_block pre.data ('\n' :: trail.data) h
      simp only [List.cons_append, List.nil_append, bt_eq] at hq
      rw [hq]
      show String.mk (jsTrimEnd ['X', '\n'] ++ ['\n']) = "X\n"
      decide

/-- Claim C7 counterexample: a preamble that itself contains a fence
marker changes the result: the first match starts inside the preamble and
the extractor returns an empty interior instead of `X`. -/
theorem fence_preamble_hijacks :
    extractCode [⟨"text", "```"⟩, ⟨"text", "```csharp\nX\n```"⟩, ⟨"text", "trailer"⟩] =
        "\n" ∧
      ("\n" : String) ≠ "X\n" := by
  constructor
  · decide
  · decide

theorem extract_block_clean_preamble_witness :
    containsTriple ("Here is the corrected file:" : String).data = false ∧
      extractCode [⟨"text", "Here is the corrected file:"⟩, ⟨"text", "```csharp\nX\n```"⟩,
        ⟨"text", "Let me know."⟩] = "X\n" :=
  ⟨by decide,
    extract_block_clean_preamble "Here is the corrected file:" "Let me know." (by decide)⟩

theorem mkString_cons_ne_empty (c : Char) (l : List Char) :
    (String.mk (c :: l) != "") = true := by
  refine bne_iff_ne.mpr fun hcontr => ?_
  have hdata := congrArg String.data hcontr
  simp at hdata

/-- Claim C8 counterexample: the tag match is case-sensitive: a block
tagged `CSharp` is not recognised (the extractor falls back to the whole
text, fences included), while the lowercase spelling extracts `X`. -/
theorem fence_tag_uppercase_not_recognised :
    extractCode [⟨"text", "```CSharp\nX\n```"⟩] = "```CSharp\nX\n```\n" ∧
      extractCode [⟨"text", "```csharp\nX\n```"⟩] = "X\n" := by
  constructor
  · decide
  · decide

theorem mem_mid_nonbt (pre : List Char) (c0 : Char) (body : List Char)
    (hpre : ∀ c ∈ pre, (c == bt) = false) (hb : ∀ c ∈ c0 :: body, (c == bt) = false) :
    ∀ c ∈ pre ++ ((c0 :: body) ++ ['\n']), (c == bt) = false := by
  intro c hc
  rcases List.mem_append.mp hc with h | h
  · exact hpre c h
  rcases List.mem_append.mp h with h | h
  · exact hb c h
  · rcases List.mem_singleton.mp h with rfl
    decide

/-- Claim C8 amended: the fenced-block search matches the opening fence
language tag case-sensitively, accepting exactly the lowercase spellings
`csharp` and `cs` (or no tag at all): for a block whose interior is a line
of non-whitespace, non-backtick characters, the three accepted forms all
extract the interior, while the case variants `CSharp` and `CS` are not
recognised as fenced blocks at all. -/
theorem fence_tag_case_sensitive (c0 : Char) (body : List Char)
    (hnws : ∀ c ∈ c0 :: body, isJsWs c = false)
    (hb : ∀ c ∈ c0 :: body, (c == bt) = false) :
    extractCode [⟨"text", String.mk (bt :: bt :: bt :: 'c' :: 's' :: 'h' :: 'a' :: 'r' ::
        'p' :: '\n' :: ((c0 :: body) ++ '\n' :: bt :: bt :: bt :: []))⟩] =
      String.mk ((c0 :: body) ++ ['\n']) ∧
    extractCode [⟨"text", String.mk (bt :: bt :: bt :: 'c' :: 's' :: '\n' ::
        ((c0 :: body) ++ '\n' :: bt :: bt :: bt :: []))⟩] =
      String.mk ((c0 :: body) ++ ['\n']) ∧
    extractCode [⟨"text", String.mk (bt :: bt :: bt :: '\n' ::
        ((c0 :: body) ++ '\n' :: bt :: bt :: bt :: []))⟩] =
      String.mk ((c0 :: body) ++ ['\n']) ∧
    hasFence [⟨"text", String.mk (bt :: bt :: bt :: 'C' :: 'S' :: 'h' :: 'a' :: 'r' ::
        'p' :: '\n' :: ((c0 :: body) ++ '\n' :: bt :: bt :: bt :: []))⟩] = false ∧
    hasFence [⟨"text", String.mk (bt :: bt :: bt :: 'C' :: 'S' :: '\n' ::
        ((c0 :: body) ++ '\n' :: bt :: bt :: bt :: []))⟩] = false := by
  have hws0 : isJsWs c0 = false := hnws c0 (by simp)
  have htrim := jsTrimEnd_nonws (c0 :: body) hnws
  refine ⟨?_, ?_, ?_, ?_, ?_⟩
  · unfold extractCode responseText findFence
    simp only [List.filter_cons, List.filter_nil, List.map_cons, List.map_nil,
      mkString_cons_ne_empty, Bool.and_true, joinNl]
    norm_num
    have hq := findFenceAux_block_csharp c0 body [] hws0 hb
    simp only [List.cons_append] at hq
    rw [hq]
    show String.mk (jsTrimEnd ((c0 :: body) ++ ['\n']) ++ ['\n']) = _
    rw [htrim]
    rfl
  · unfold extractCode responseText findFence
    simp only [List.filter_cons, List.filter_nil, List.map_cons, List.map_nil,
      mkString_cons_ne_empty, Bool.and_true, joinNl]
    norm_num
    have hq := findFenceAux_block_cs c0 body [] hws0 hb
    simp only [List.cons_append] at hq
    rw [hq]
    show String.mk (jsTrimEnd ((c0 :: body) ++ ['\n']) ++ ['\n']) = _
    rw [htrim]
    rfl
  · unfold extractCode responseText findFence
    simp only [List.filter_cons, List.filter_nil, List.map_cons, List.map_nil,
      mkString_cons_ne_empty, Bool.and_true, joinNl]
    norm_num
    have hq := findFenceAux_block_untagged c0 body [] hws0 hb
    simp only [List.cons_append] at hq
    rw [hq]
    show String.mk (jsTrimEnd ((c0 :: body) ++ ['\n']) ++ ['\n']) = _
    rw [htrim]
    rfl
  · unfold hasFence responseText findFence
    simp only [List.filter_cons, List.filter_nil, List.map_cons, List.map_nil,
      mkString_cons_ne_empty, Bool.and_true, joinNl]
    norm_num
    have hrej := findFenceAux_reject 'C'
      (('S' :: 'h' :: 'a' :: 'r' :: 'p' :: '\n' :: []) ++ ((c0 :: body) ++ ['\n']))
      (by decide) (by decide) (by decide)
      (mem_mid_nonbt ('S' :: 'h' :: 'a' :: 'r' :: 'p' :: '\n' :: []) c0 body (by decide) hb)
    simp only [List.cons_append, List.append_assoc, List.singleton_append,
      List.nil_append] at hrej
    rw [hrej]
  · unfold hasFence responseText findFence
    simp only [List.filter_cons, List.filter_nil, List.map_cons, List.map_nil,
      mkString_cons_ne_empty, Bool.and_true, joinNl]
    norm_num
    have hrej := findFenceAux_reject 'C'
      (('S' :: '\n' :: []) ++ ((c0 :: body) ++ ['\n']))
      (by decide) (by decide) (by decide)
      (mem_mid_nonbt ('S' :: '\n' :: []) c0 body (by decide) hb)
    simp only [List.cons_append, List.append_assoc, List.singleton_append,
      List.nil_append] at hrej
    rw [hrej]

theorem fence_tag_case_sensitive_witness :
    (∀ c ∈ ('X' : Char) :: [], isJsWs c = false) ∧
      (∀ c ∈ ('X' : Char) :: [], (c == bt) = false) ∧
      extractCode [⟨"text", String.mk (bt :: bt :: bt :: 'c' :: 's' :: 'h' :: 'a' :: 'r' ::
          'p' :: '\n' :: (('X' :: []) ++ '\n' :: bt :: bt :: bt :: []))⟩] =
        String.mk (('X' :: []) ++ ['\n']) ∧
      hasFence [⟨"text", String.mk (bt :: bt :: bt :: 'C' :: 'S' :: '\n' ::
          (('X' :: []) ++ '\n' :: bt :: bt :: bt :: []))⟩] = false :=
  ⟨by decide, by decide,
    (fence_tag_case_sensitive 'X' [] (by decide) (by decide)).1,
    (fence_tag_case_sensitive 'X' [] (by decide) (by decide)).2.2.2.2⟩

end Repair
